import Mathlib

set_option maxHeartbeats 1000000

/-!
Verification of the roll20api mock library (src/src/roll20api.ts).

The development shallowly embeds the core of the library: JavaScript values
are modelled by `JSVal` (objects carried by numeric reference identity),
records by total functions `String → JSVal` (a missing key reads as
`undef`, as in JavaScript), the `Roll20Object` pool by an insertion-ordered
association list from identity strings to object references together with a
heap from references to records, and the event registry by a total function
from channel names to handler lists.

The TypeScript source carries no tsconfig; definitions follow the semantics
of the default (ES5) compilation target, under which `const` inside the
mock functions compiles to `var` (this matters only for the
self-referential initialisers such as the one at the top of
`MOCKS.findObjs`, which then resolve to the mock implementation).
-/

namespace Roll20

/-- JavaScript runtime values as used by the emulated API surface. Objects
are represented by a numeric reference identity (`vObj`), mirroring
JavaScript reference semantics: two `vObj` values are strictly equal
exactly when they carry the same reference. -/
inductive JSVal : Type where
  | undef : JSVal
  | vNull : JSVal
  | vBool : Bool → JSVal
  | vNum : Int → JSVal
  | vStr : String → JSVal
  | vObj : Nat → JSVal
deriving DecidableEq

/-- Pointwise update of a total function, modelling assignment to a
JavaScript record field or map entry. -/
def upd {α β : Type} [DecidableEq α] (f : α → β) (k : α) (v : β) : α → β :=
  fun x => if x = k then v else f x

/-- A JavaScript record as a total map; absent keys read as `undef`. -/
abbrev JSRecord := String → JSVal

/-- The record with no own keys. -/
def emptyRec : JSRecord := fun _ => JSVal.undef

/-- JavaScript ToString, restricted to the value forms of the model.
Records reaching a string context are plain objects, whose default
ToPrimitive yields the string below. -/
def jsToString : JSVal → String
  | JSVal.undef => "undefined"
  | JSVal.vNull => "null"
  | JSVal.vBool true => "true"
  | JSVal.vBool false => "false"
  | JSVal.vNum n => toString n
  | JSVal.vStr s => s
  | JSVal.vObj _ => "[object Object]"

/-- JavaScript truthiness of a value. -/
def jsTruthy : JSVal → Bool
  | JSVal.undef => false
  | JSVal.vNull => false
  | JSVal.vBool b => b
  | JSVal.vNum n => n != 0
  | JSVal.vStr s => s != ""
  | JSVal.vObj _ => true

/-- JavaScript loose equality over the model's values, covering the case
combinations the embedded code can reach: same-type comparisons, the
`undefined`/`null` pair, and a plain object against a string (object
ToPrimitive yields "[object Object]"). Remaining mixed-type coercions are
unreachable in the embedded call sites and are mapped to `false`. -/
def jsLooseEq : JSVal → JSVal → Bool
  | JSVal.undef, JSVal.undef => true
  | JSVal.undef, JSVal.vNull => true
  | JSVal.vNull, JSVal.undef => true
  | JSVal.vNull, JSVal.vNull => true
  | JSVal.vBool a, JSVal.vBool b => a == b
  | JSVal.vNum a, JSVal.vNum b => a == b
  | JSVal.vStr a, JSVal.vStr b => a == b
  | JSVal.vObj a, JSVal.vObj b => a == b
  | JSVal.vObj _, JSVal.vStr s => "[object Object]" == s
  | JSVal.vStr s, JSVal.vObj _ => s == "[object Object]"
  | _, _ => false

/-- The keys `Roll20Object.set` refuses to overwrite
(src/src/roll20api.ts line 605). -/
def IMMUTABLE_KEYS : List String := ["_id", "id", "_type", "type"]

/-- The per-key loop shared verbatim by `Roll20Object.set` and
`Roll20Object.setWithWorker` (lines 558-564 and 577-583): immutable keys
are skipped with an error diagnostic, every other key is overwritten.
Returns the updated record together with the list of rejected keys (the
diagnostics emitted), in processing order. -/
def applyChanges : List (String × JSVal) → JSRecord → JSRecord × List String
  | [], r => (r, [])
  | (k, v) :: rest, r =>
    if k ∈ IMMUTABLE_KEYS then
      let out := applyChanges rest r
      (out.1, k :: out.2)
    else
      applyChanges rest (upd r k v)

/-- `Roll20Object.set` in batch form (lines 545-565). The call never
throws: it returns the updated record and the diagnostics. -/
def objSet (changes : List (String × JSVal)) (r : JSRecord) : JSRecord × List String :=
  applyChanges changes r

/-- `Roll20Object.ASYNC_TYPES` (lines 472-475), as the stored `_type`
values. -/
def ASYNC_TYPES : List JSVal := [JSVal.vStr "character", JSVal.vStr "handout"]

/-- `Roll20Object.ASYNC_FIELDS` (line 480). -/
def ASYNC_FIELDS : List String := ["notes", "gmnotes", "bio"]

/-- `Roll20Object.get` (lines 525-539). The continuation is optional; when
the object's `_type` is an async type, the key is an async field and no
continuation was given, the call throws. Otherwise the current value is
read and either returned directly (`Sum.inl`) or delivered through the
continuation (`Sum.inr`, carrying the continuation's result — the model
applies the continuation exactly once, to the current value, as the source
does). -/
def objGet {α : Type} (r : JSRecord) (key : String) (cb : Option (JSVal → α)) :
    Except String (JSVal ⊕ α) :=
  if r "_type" ∈ ASYNC_TYPES ∧ key ∈ ASYNC_FIELDS ∧ cb.isNone = true then
    Except.error "Callback required to get key."
  else
    match cb with
    | some f => Except.ok (Sum.inr (f (r key)))
    | none => Except.ok (Sum.inl (r key))

/-- Whether an `Except` result is an error (a thrown exception). -/
def isThrown {ε α : Type} : Except ε α → Bool
  | Except.error _ => true
  | Except.ok _ => false

/-!
The entity store. `Roll20Object.pool` is a plain JavaScript record from
identity string to object; its keys are non-numeric, so enumeration order
is insertion order, modelled by an association list. The heap maps each
wrapper reference to its `_obj` record.
-/

/-- Set a pool entry: an existing key keeps its position and gets the new
value, a fresh key is appended (JavaScript record assignment). -/
def poolSet : List (String × Nat) → String → Nat → List (String × Nat)
  | [], k, v => [(k, v)]
  | (k', v') :: rest, k, v =>
    if k' = k then (k, v) :: rest else (k', v') :: poolSet rest k v

/-- Read a pool entry; `none` models reading an absent key (undefined). -/
def poolGet : List (String × Nat) → String → Option Nat
  | [], _ => none
  | (k', v') :: rest, k => if k' = k then some v' else poolGet rest k

/-- Delete a pool entry (the JavaScript `delete` operator; deleting an
absent key is a no-op). -/
def poolDelete : List (String × Nat) → String → List (String × Nat)
  | [], _ => []
  | (k', v') :: rest, k =>
    if k' = k then rest else (k', v') :: poolDelete rest k

/-- The process-wide store: `Roll20Object.pool` (identity string to
wrapper reference, insertion-ordered), the heap of `_obj` records, and the
counters supplying fresh references and identities. The source draws
identities from `util.uuid()` (Math.random-based); the model replaces the
random draw by a counter, keeping the salient property that consecutive
draws are fresh. -/
structure Store where
  pool : List (String × Nat)
  heap : Nat → JSRecord
  nextRef : Nat
  nextId : Nat

/-- The store holding no objects. -/
def emptyStore : Store :=
  { pool := [], heap := fun _ => emptyRec, nextRef := 0, nextId := 0 }

/-- Counter-based stand-in for `util.uuid()` (line 204). -/
def uuid (n : Nat) : String := "x-" ++ toString n

/-- The `Roll20Object` constructor (lines 505-512): adopt the initializer
record as `_obj`, default `_type` from `type` when `_type` is falsy,
default `_id` from `uuid()` when `_id` is falsy, then register the wrapper
in the pool under its identity string. Returns the fresh wrapper
reference and the updated store. -/
def mkObject (init : JSRecord) (st : Store) : Nat × Store :=
  let r := st.nextRef
  let t := if jsTruthy (init "_type") then init "_type" else init "type"
  let rec1 := upd init "_type" t
  let idv := if jsTruthy (rec1 "_id") then rec1 "_id" else JSVal.vStr (uuid st.nextId)
  let rec2 := upd rec1 "_id" idv
  (r, { pool := poolSet st.pool (jsToString idv) r,
        heap := upd st.heap r rec2,
        nextRef := r + 1,
        nextId := st.nextId + 1 })

/-- `MOCKS.createObj` (lines 749-758): spread the supplied fields and
overwrite `type`, then construct. -/
def createObj (type : String) (obj : JSRecord) (st : Store) : Nat × Store :=
  mkObject (upd obj "type" (JSVal.vStr type)) st

/-- `Roll20Object.remove` (lines 588-595), exactly as written: when the
pool's current occupant of `this.id` is `this` itself, an error diagnostic
is emitted ("id not found in pool") and nothing changes (first component
`false`); otherwise the pool slot for `this.id` is deleted and `this` is
returned (first component `true`). -/
def removeObj (r : Nat) (st : Store) : Bool × Store :=
  let idStr := jsToString (st.heap r "_id")
  if poolGet st.pool idStr = some r then
    (false, st)
  else
    (true, { st with pool := poolDelete st.pool idStr })

/-- `MOCKS.getAllObjs` (lines 805-806): enumerate the pool's keys and read
each entry, yielding the wrappers in insertion order. -/
def getAllObjs (st : Store) : List Nat :=
  st.pool.map (fun kv => kv.2)

/-- `MOCKS.filterObjs` (lines 762-766): the pool's objects filtered by the
predicate. -/
def filterObjs (cb : Nat → Bool) (st : Store) : List Nat :=
  (st.pool.map (fun kv => kv.2)).filter cb

/-- The own enumerable keys of a `Roll20Object` instance, as enumerated by
`Object.keys(testObj)` inside `MOCKS.findObjs` (line 778): the class's
only own property is the private field `_obj` assigned in the
constructor (the `id` getter lives on the prototype). -/
def wrapperOwnKeys : List String := ["_obj"]

/-- The property view of a `Roll20Object` instance `r` as a JavaScript
object: its only own property `_obj` holds the record object, carried here
by reference (one record per wrapper, so the wrapper reference doubles as
the record's reference identity); every other key reads as undefined. -/
def wrapperView (r : Nat) : JSRecord :=
  fun k => if k = "_obj" then JSVal.vObj r else JSVal.undef

/-- One iteration of the key loop inside the `MOCKS.findObjs` callback
(lines 777-798), mirroring the two successive guarded assignments to
`found`: the case-insensitive fold applies when either side is a string,
then the loose inequality test runs on the raw values. -/
def findStep (pattern : JSRecord) (ci : Bool) (tv : JSRecord)
    (found : Bool) (key : String) : Bool :=
  let testValue := tv key
  let objValue := pattern key
  let found1 :=
    if found && ci then
      if (match objValue with | JSVal.vStr _ => true | _ => false) ||
         (match testValue with | JSVal.vStr _ => true | _ => false) then
        if (jsToString testValue).toLower != (jsToString objValue).toLower then
          false
        else found
      else found
    else found
  if found1 && !(jsLooseEq testValue objValue) then false else found1

/-- `MOCKS.findObjs` (lines 770-801). Under the default compilation
target the self-referential `const filterObjs` initialiser resolves to
`MOCKS.filterObjs`, so the search filters the pool with the callback that
folds `findStep` over `Object.keys(testObj)` — the keys of the candidate
wrapper object, which are exactly `["_obj"]`. -/
def findObjs (pattern : JSRecord) (ci : Bool) (st : Store) : List Nat :=
  filterObjs (fun r => wrapperOwnKeys.foldl (findStep pattern ci (wrapperView r)) true) st

/-!
The event bus. `MOCKS._handlers` is a record from channel name to an array
of handler functions, modelled as a total function defaulting to the empty
list (the source reads `MOCKS._handlers[n] || []`). Handlers are client
callbacks; the model gives each one an identifying number and lets it
register further handlers through `onSheetWorkerCompleted` when invoked,
which is the handler behaviour the dispatcher's semantics is sensitive
to. Every invocation is appended to a call trace carrying the payload the
handler received. -/

/-- A client event handler: an identifying number together with the
handlers it registers via `onSheetWorkerCompleted` when invoked. -/
inductive Handler : Type where
  | mk : Nat → List Handler → Handler

/-- The identifying number of a handler. -/
def Handler.hid : Handler → Nat
  | Handler.mk i _ => i

/-- The handlers a handler registers when invoked. -/
def Handler.regs : Handler → List Handler
  | Handler.mk _ rs => rs

/-- The event-bus state: the registration record `MOCKS._handlers` and the
observable trace of handler invocations (handler number, payload). -/
structure EvState where
  handlers : String → List Handler
  calls : List (Nat × List JSVal)

/-- Invoke one handler: record the invocation with its payload and append
the handlers it registers to the "sheetWorkerCompleted" list (the effect
of the `onSheetWorkerCompleted` calls it makes). -/
def runHandler (payload : List JSVal) (st : EvState) (h : Handler) : EvState :=
  { handlers :=
      upd st.handlers "sheetWorkerCompleted"
        (st.handlers "sheetWorkerCompleted" ++ h.regs),
    calls := st.calls ++ [(h.hid, payload)] }

/-- `handlers.forEach((handler) => handler(...rest))`: JavaScript forEach
fixes the length at entry, so exactly the handlers present when the loop
starts are invoked, in order, even if invocations append to the array. -/
def runHandlers (payload : List JSVal) (hs : List Handler) (st : EvState) : EvState :=
  hs.foldl (runHandler payload) st

/-- JavaScript `String.prototype.split` with a one-character separator,
on the character list: accumulate the current segment until the separator,
then emit it. -/
def splitAux (sep : Char) : List Char → List Char → List String
  | [], acc => [String.mk acc.reverse]
  | c :: cs, acc =>
    if c = sep then String.mk acc.reverse :: splitAux sep cs []
    else splitAux sep cs (c :: acc)

/-- `eventName.split(":")` (line 330). -/
def jsSplit (sep : Char) (s : String) : List String :=
  splitAux sep s.data []

/-- `subEvents.join(":")` (line 332), JavaScript `Array.prototype.join`. -/
def jsJoin (sep : String) : List String → String
  | [] => ""
  | [a] => a
  | a :: rest => a ++ sep ++ jsJoin sep rest

/-- The `while (subEvents.length)` loop of `_fireEvent` (lines 331-337):
fire the handlers registered under the joined segments, then pop the last
segment and continue; the registration list for each level is re-read when
that level fires. -/
def cascade (payload : List JSVal) : List String → EvState → EvState
  | [], st => st
  | seg :: rest, st =>
    let st2 := runHandlers payload (st.handlers (jsJoin ":" (seg :: rest))) st
    cascade payload (seg :: rest).dropLast st2
termination_by segs _ => segs.length
decreasing_by
  simp [List.length_dropLast]

/-- `_fireEvent` (lines 320-338): the distinguished channel
"sheetWorkerCompleted" invokes the handlers registered under that exact
name (a snapshot — registrations made by those handlers extend the array
past the forEach bound) and then replaces the registration list by a fresh
empty array; every other name cascades over its ":"-separated prefixes
from most to least specific. -/
def fireEvent (eventName : String) (payload : List JSVal) (st : EvState) : EvState :=
  if eventName = "sheetWorkerCompleted" then
    let st2 := runHandlers payload (st.handlers eventName) st
    { st2 with handlers := upd st2.handlers eventName [] }
  else
    cascade payload (jsSplit ':' eventName) st

/-- `MOCKS.on` (lines 835-854): append the handler to the channel's list,
creating it if absent. -/
def onEvent (eventName : String) (h : Handler) (st : EvState) : EvState :=
  { st with handlers := upd st.handlers eventName (st.handlers eventName ++ [h]) }

/-- `MOCKS.onSheetWorkerCompleted` (lines 861-866). -/
def onSheetWorkerCompleted (h : Handler) (st : EvState) : EvState :=
  onEvent "sheetWorkerCompleted" h st

/-- `Roll20Object.setWithWorker` (lines 572-587): throws unless the
object's `_type` is "attribute" (strict inequality); otherwise runs the
same per-key immutability loop as `set` and then fires
"sheetWorkerCompleted" with no payload. Returns the updated record, the
rejected keys and the event-bus state after the fire. -/
def setWithWorker (r : JSRecord) (changes : List (String × JSVal)) (ev : EvState) :
    Except String (JSRecord × List String × EvState) :=
  if r "_type" ≠ JSVal.vStr "attribute" then
    Except.error "Can't call setWithWorker on non-attribute objects."
  else
    let out := applyChanges changes r
    Except.ok (out.1, out.2, fireEvent "sheetWorkerCompleted" [] ev)

/-!
The capability binding layer (lines 1015-1039): for each key of `MOCKS`,
adopt the same-named member of the top-level scope when it is defined,
otherwise the mock; then, when `WRAPPERS` has an entry for the key, replace
the adopted callable by the wrapper applied to it. -/

/-- One iteration of the binding loop for capability name `k`: resolve
host-versus-mock, then apply the registered wrapper if any. `α` is the
type standing for the bound callables. -/
def bindCapability {α : Type} (host : String → Option α) (mocks : String → α)
    (wrappers : String → Option (α → α)) (k : String) : α :=
  let resolved :=
    match host k with
    | some f => f
    | none => mocks k
  match wrappers k with
  | some w => w resolved
  | none => resolved

/-- The whole binding loop: `Object.keys(MOCKS).forEach(...)` building
`_api`, one entry per capability name in enumeration order. -/
def bindAll {α : Type} (names : List String) (host : String → Option α)
    (mocks : String → α) (wrappers : String → Option (α → α)) : List (String × α) :=
  names.map (fun k => (k, bindCapability host mocks wrappers k))

/-- Lookup in the bound surface `_api` by capability name. -/
def assocFind {α : Type} (k : String) : List (String × α) → Option α
  | [] => none
  | (k', v) :: rest => if k' = k then some v else assocFind k rest

/-!
Concrete inputs used by the evaluation theorems and witnesses. -/

/-- A store holding exactly one freshly created character entity. -/
def demoStore : Store := (createObj "character" emptyRec emptyStore).2

/-- The reference of that character entity. -/
def demoRef : Nat := (createObj "character" emptyRec emptyStore).1

/-- The search pattern of the end-to-end test: every character. -/
def charPattern : JSRecord := upd emptyRec "type" (JSVal.vStr "character")

/-- A record whose `_type` is "attribute". -/
def attrRec : JSRecord := upd emptyRec "_type" (JSVal.vStr "attribute")

/-- An event-bus state with one handler each on the channels "x:y", "x"
and "z" and an empty call trace. -/
def demoBus : EvState :=
  { handlers := fun n =>
      if n = "x:y" then [Handler.mk 1 []]
      else if n = "x" then [Handler.mk 2 []]
      else if n = "z" then [Handler.mk 3 []]
      else [],
    calls := [] }

/-!
Helper lemmas about the per-key change loop. -/

theorem applyChanges_immutable (changes : List (String × JSVal)) :
    ∀ (r : JSRecord) (k : String), k ∈ IMMUTABLE_KEYS →
      (applyChanges changes r).1 k = r k := by
  induction changes with
  | nil => intro r k _; rfl
  | cons kv rest ih =>
    intro r k hk
    obtain ⟨k', v⟩ := kv
    by_cases h : k' ∈ IMMUTABLE_KEYS
    · simpa [applyChanges, h] using ih r k hk
    · have hne : k ≠ k' := fun he => h (he ▸ hk)
      simp only [applyChanges, if_neg h]
      rw [ih (upd r k' v) k hk]
      simp [upd, hne]

theorem applyChanges_absent (changes : List (String × JSVal)) :
    ∀ (r : JSRecord) (k : String), k ∉ changes.map Prod.fst →
      (applyChanges changes r).1 k = r k := by
  induction changes with
  | nil => intro r k _; rfl
  | cons kv rest ih =>
    intro r k hk
    obtain ⟨k', v⟩ := kv
    simp only [List.map_cons, List.mem_cons] at hk
    push_neg at hk
    by_cases h : k' ∈ IMMUTABLE_KEYS
    · simpa [applyChanges, h] using ih r k hk.2
    · simp only [applyChanges, if_neg h]
      rw [ih (upd r k' v) k hk.2]
      simp [upd, hk.1]

theorem applyChanges_mutable (changes : List (String × JSVal)) :
    ∀ (r : JSRecord) (k : String) (v : JSVal),
      (changes.map Prod.fst).Nodup → (k, v) ∈ changes → k ∉ IMMUTABLE_KEYS →
      (applyChanges changes r).1 k = v := by
  induction changes with
  | nil => intro r k v _ hmem _; cases hmem
  | cons kv rest ih =>
    intro r k v hnd hmem him
    obtain ⟨k', v'⟩ := kv
    simp only [List.map_cons, List.nodup_cons] at hnd
    rcases List.mem_cons.mp hmem with hhead | htail
    · have hk : k = k' := congrArg Prod.fst hhead
      have hv : v = v' := congrArg Prod.snd hhead
      subst hk
      subst hv
      simp only [applyChanges, if_neg him]
      rw [applyChanges_absent rest (upd r k v) k hnd.1]
      simp [upd]
    · by_cases h : k' ∈ IMMUTABLE_KEYS
      · simpa [applyChanges, h] using ih r k v hnd.2 htail him
      · simp only [applyChanges, if_neg h]
        exact ih (upd r k' v') k v hnd.2 htail him

/-- C5: for every record and every change batch mixing immutable and other
keys, `set` never throws (it is a total function of the state), every
immutable key keeps its pre-call value — such keys are merely reported in
the rejected-keys diagnostic list — and every non-immutable key of the
batch ends up holding its new value. The batch is a JavaScript object, so
its keys are pairwise distinct. -/
theorem c5_set_batch_immutable_filtering (r : JSRecord)
    (changes : List (String × JSVal)) (hnd : (changes.map Prod.fst).Nodup) :
    (∀ k ∈ IMMUTABLE_KEYS, (objSet changes r).1 k = r k) ∧
    (∀ kv ∈ changes, kv.1 ∉ IMMUTABLE_KEYS → (objSet changes r).1 kv.1 = kv.2) := by
  constructor
  · intro k hk
    exact applyChanges_immutable changes r k hk
  · intro kv hmem him
    exact applyChanges_mutable changes r kv.1 kv.2 hnd hmem him

/-- Witness for C5 at a concrete batch mixing the immutable key "_id" with
the mutable key "name". -/
theorem c5_set_batch_immutable_filtering_witness :
    (∀ k ∈ IMMUTABLE_KEYS,
      (objSet [("_id", JSVal.vStr "hack"), ("name", JSVal.vStr "Bob")] charPattern).1 k =
        charPattern k) ∧
    (∀ kv ∈ [("_id", JSVal.vStr "hack"), ("name", JSVal.vStr "Bob")],
      kv.1 ∉ IMMUTABLE_KEYS →
      (objSet [("_id", JSVal.vStr "hack"), ("name", JSVal.vStr "Bob")] charPattern).1 kv.1 =
        kv.2) :=
  c5_set_batch_immutable_filtering charPattern
    [("_id", JSVal.vStr "hack"), ("name", JSVal.vStr "Bob")] (by decide)

/-- C6: `get` throws exactly when the object's kind is async-capable
("character" or "handout"), the key is an async-only field ("notes",
"gmnotes" or "bio") and no continuation was supplied; in every other case
the value is produced synchronously, and a supplied continuation is
applied exactly once, to the current field value. -/
theorem c6_get_async_gate {α : Type} (r : JSRecord) (key : String)
    (cb : Option (JSVal → α)) :
    (isThrown (objGet r key cb) = true ↔
      ((r "_type" = JSVal.vStr "character" ∨ r "_type" = JSVal.vStr "handout") ∧
        key ∈ ASYNC_FIELDS ∧ cb = none)) ∧
    (∀ f, cb = some f → objGet r key cb = Except.ok (Sum.inr (f (r key)))) ∧
    (cb = none →
      ¬((r "_type" = JSVal.vStr "character" ∨ r "_type" = JSVal.vStr "handout") ∧
          key ∈ ASYNC_FIELDS) →
      objGet r key cb = Except.ok (Sum.inl (r key))) := by
  have hmem : r "_type" ∈ ASYNC_TYPES ↔
      (r "_type" = JSVal.vStr "character" ∨ r "_type" = JSVal.vStr "handout") := by
    simp [ASYNC_TYPES]
  refine ⟨?_, ?_, ?_⟩
  · by_cases h : r "_type" ∈ ASYNC_TYPES ∧ key ∈ ASYNC_FIELDS ∧ cb.isNone = true
    · simp only [objGet, if_pos h, isThrown]
      simp only [Option.isNone_iff_eq_none] at h
      simp [hmem.mp h.1, h.2.1, h.2.2]
    · simp only [objGet, if_neg h]
      constructor
      · intro hcontr
        cases cb with
        | none => simp [isThrown] at hcontr
        | some f => simp [isThrown] at hcontr
      · intro hcond
        exact absurd ⟨hmem.mpr hcond.1, hcond.2.1, by simp [hcond.2.2]⟩ h
  · intro f hf
    subst hf
    have h : ¬(r "_type" ∈ ASYNC_TYPES ∧ key ∈ ASYNC_FIELDS ∧
        (some f).isNone = true) := by
      simp
    simp [objGet, if_neg h]
  · intro hcb hcond
    subst hcb
    have h : ¬(r "_type" ∈ ASYNC_TYPES ∧ key ∈ ASYNC_FIELDS ∧
        (none : Option (JSVal → α)).isNone = true) := by
      intro hc
      exact hcond ⟨hmem.mp hc.1, hc.2.1⟩
    simp [objGet, if_neg h]
    intro ht hk
    exact hcond ⟨hmem.mp ht, hk⟩

/-- Witness for C6: reading the async-only field "notes" of a character
with a continuation delivers exactly one application of the continuation
to the current value. -/
theorem c6_get_async_gate_witness :
    objGet (upd emptyRec "_type" (JSVal.vStr "character")) "notes"
        (some (fun v => [v])) =
      Except.ok (Sum.inr [upd emptyRec "_type" (JSVal.vStr "character") "notes"]) :=
  (c6_get_async_gate (upd emptyRec "_type" (JSVal.vStr "character")) "notes"
      (some (fun v => [v]))).2.1 (fun v => [v]) rfl

/-- C7: every query against the empty store — `filterObjs`/`findAll` with
any predicate, `findObjs`/`findMatching` with any pattern, and
`getAllObjs`/`all` — returns the empty sequence; each operation is a total
function, so no error is raised. -/
theorem c7_empty_store_queries (cb : Nat → Bool) (pattern : JSRecord) (ci : Bool) :
    filterObjs cb emptyStore = [] ∧
    findObjs pattern ci emptyStore = [] ∧
    getAllObjs emptyStore = [] :=
  ⟨rfl, rfl, rfl⟩

/-- C1 is a code bug: the polarity of the occupancy test in
`Roll20Object.remove` is inverted. For the freshly created character of
`demoStore` — which IS the pool's current occupant of its identity — the
claim (and the spec) requires removal to succeed and de-register it, but
the code takes the error path (emitting a diagnostic whose text, "id not
found in pool", contradicts the tested condition), mutates nothing, and
the entity is still returned by `getAllObjs`. -/
theorem c1_remove_polarity_eval :
    (removeObj demoRef demoStore).1 = false ∧
    (removeObj demoRef demoStore).2.pool = demoStore.pool ∧
    demoRef ∈ getAllObjs (removeObj demoRef demoStore).2 := by
  refine ⟨by decide, by decide, by decide⟩

/-- C2 is a code bug: the callback built inside `MOCKS.findObjs` iterates
over `Object.keys(testObj)` — the own keys of the candidate pool object,
which are exactly `["_obj"]` — instead of the keys of the search pattern,
and so compares the candidate's internal record object against the
pattern's (absent) `_obj` member. The loose inequality of an object
against undefined always holds, so no candidate ever matches: searching
`demoStore` for its own character with the end-to-end pattern
`{type: "character"}` returns the empty list although the entity is
registered (it appears in `getAllObjs`). -/
theorem c2_findObjs_never_matches_eval :
    findObjs charPattern false demoStore = [] ∧
    findObjs charPattern true demoStore = [] ∧
    demoRef ∈ getAllObjs demoStore := by
  refine ⟨by decide, by decide, by decide⟩

/-!
Helper lemmas about the event dispatcher. -/

theorem runHandlers_calls (p : List JSVal) :
    ∀ (hs : List Handler) (st : EvState),
      (runHandlers p hs st).calls = st.calls ++ hs.map (fun h => (h.hid, p)) := by
  intro hs
  induction hs with
  | nil => intro st; simp [runHandlers]
  | cons h rest ih =>
    intro st
    simp only [runHandlers, List.foldl_cons] at ih ⊢
    rw [ih]
    simp [runHandler, List.append_assoc]

theorem runHandlers_handlers_ne (p : List JSVal) (n : String)
    (hn : n ≠ "sheetWorkerCompleted") :
    ∀ (hs : List Handler) (st : EvState),
      (runHandlers p hs st).handlers n = st.handlers n := by
  intro hs
  induction hs with
  | nil => intro st; rfl
  | cons h rest ih =>
    intro st
    simp only [runHandlers, List.foldl_cons] at ih ⊢
    rw [ih]
    simp [runHandler, upd, hn]

theorem fireEvent_swc_calls (st : EvState) (p : List JSVal) :
    (fireEvent "sheetWorkerCompleted" p st).calls =
      st.calls ++ (st.handlers "sheetWorkerCompleted").map (fun h => (h.hid, p)) := by
  simp only [fireEvent, if_pos rfl]
  exact runHandlers_calls p (st.handlers "sheetWorkerCompleted") st

theorem fireEvent_swc_clears (st : EvState) (p : List JSVal) :
    (fireEvent "sheetWorkerCompleted" p st).handlers "sheetWorkerCompleted" = [] := by
  simp [fireEvent, upd]

/-- C3: firing "sheetWorkerCompleted" invokes exactly the handlers
registered under that exact name, each once, in registration order, all
with the fired payload (the call-trace equation), then clears that
registration list; a second fire with no new registrations therefore
invokes zero handlers (its call trace is unchanged). No other channel's
handlers are invoked — the trace extension consists solely of the
"sheetWorkerCompleted" registrations. -/
theorem c3_sheetworker_fire_and_forget (st : EvState) (p q : List JSVal) :
    (fireEvent "sheetWorkerCompleted" p st).calls =
      st.calls ++ (st.handlers "sheetWorkerCompleted").map (fun h => (h.hid, p)) ∧
    (fireEvent "sheetWorkerCompleted" p st).handlers "sheetWorkerCompleted" = [] ∧
    (fireEvent "sheetWorkerCompleted" q (fireEvent "sheetWorkerCompleted" p st)).calls =
      (fireEvent "sheetWorkerCompleted" p st).calls := by
  refine ⟨fireEvent_swc_calls st p, fireEvent_swc_clears st p, ?_⟩
  rw [fireEvent_swc_calls _ q, fireEvent_swc_clears st p]
  simp

/-- C10: after a fire of "sheetWorkerCompleted" the registration list for
that channel is empty for EVERY starting state — in particular for states
whose registered handlers register new handlers (their `regs`) through
`onSheetWorkerCompleted` during the fire: those mid-fire registrations
extend the array past the forEach bound and are then discarded by the
post-fire reset, so a following fire invokes nothing. -/
theorem c10_midfire_registrations_discarded (st : EvState) (p q : List JSVal) :
    (fireEvent "sheetWorkerCompleted" p st).handlers "sheetWorkerCompleted" = [] ∧
    (fireEvent "sheetWorkerCompleted" q (fireEvent "sheetWorkerCompleted" p st)).calls =
      (fireEvent "sheetWorkerCompleted" p st).calls := by
  refine ⟨fireEvent_swc_clears st p, ?_⟩
  rw [fireEvent_swc_calls _ q, fireEvent_swc_clears st p]
  simp

/-!
String-splitting lemmas for the cascading dispatch. -/

theorem splitAux_append (sep : Char) (l2 : List Char) :
    ∀ (l1 acc : List Char), sep ∉ l1 →
      splitAux sep (l1 ++ sep :: l2) acc =
        String.mk (acc.reverse ++ l1) :: splitAux sep l2 [] := by
  intro l1
  induction l1 with
  | nil =>
    intro acc _
    simp [splitAux]
  | cons c cs ih =>
    intro acc h
    have hc : ¬(c = sep) := fun he => h (by simp [he])
    have htl : sep ∉ cs := fun hm => h (by simp [hm])
    simp only [List.cons_append, splitAux, if_neg hc, List.append_eq]
    rw [ih (c :: acc) htl]
    simp

theorem splitAux_no_sep (sep : Char) :
    ∀ (l acc : List Char), sep ∉ l →
      splitAux sep l acc = [String.mk (acc.reverse ++ l)] := by
  intro l
  induction l with
  | nil =>
    intro acc _
    simp [splitAux]
  | cons c cs ih =>
    intro acc h
    have hc : ¬(c = sep) := fun he => h (by simp [he])
    have htl : sep ∉ cs := fun hm => h (by simp [hm])
    simp only [splitAux, if_neg hc]
    rw [ih (c :: acc) htl]
    simp

theorem jsSplit_two (x y : String) (hx : ':' ∉ x.data) (hy : ':' ∉ y.data) :
    jsSplit ':' (x ++ ":" ++ y) = [x, y] := by
  have hdata : (x ++ ":" ++ y).data = x.data ++ ':' :: y.data := by
    simp [String.data_append]
  simp only [jsSplit, hdata]
  rw [splitAux_append ':' y.data x.data [] hx, splitAux_no_sep ':' y.data [] hy]
  simp

theorem joined_ne_swc (x y : String) : x ++ ":" ++ y ≠ "sheetWorkerCompleted" := by
  intro h
  have hmem : ':' ∈ ("sheetWorkerCompleted" : String).data := by
    rw [← h]
    simp [String.data_append]
  exact absurd hmem (by decide)

/-- C4: firing an ordinary two-level channel "x:y" invokes, in order,
first every handler registered under "x:y" and then every handler
registered under "x", each receiving the fired payload (the call-trace
equation — so a level with an empty registration list contributes nothing
and is a no-op, not an error), and the registration list of an unrelated
channel "z" is untouched; no handler outside the two trace segments is
invoked. -/
theorem c4_cascading_dispatch (x y z : String) (p : List JSVal) (st : EvState)
    (hx : ':' ∉ x.data) (hy : ':' ∉ y.data)
    (hxs : x ≠ "sheetWorkerCompleted")
    (_hz1 : z ≠ x ++ ":" ++ y) (_hz2 : z ≠ x) (hz3 : z ≠ "sheetWorkerCompleted") :
    (fireEvent (x ++ ":" ++ y) p st).calls =
      st.calls ++ (st.handlers (x ++ ":" ++ y)).map (fun h => (h.hid, p))
               ++ (st.handlers x).map (fun h => (h.hid, p)) ∧
    (fireEvent (x ++ ":" ++ y) p st).handlers z = st.handlers z := by
  have hne := joined_ne_swc x y
  have hfire : fireEvent (x ++ ":" ++ y) p st = cascade p [x, y] st := by
    simp only [fireEvent, if_neg hne, jsSplit_two x y hx hy]
  have hjoin2 : jsJoin ":" [x, y] = x ++ ":" ++ y := rfl
  have hcasc : cascade p [x, y] st =
      runHandlers p
        ((runHandlers p (st.handlers (x ++ ":" ++ y)) st).handlers x)
        (runHandlers p (st.handlers (x ++ ":" ++ y)) st) := by
    rw [cascade, hjoin2]
    rw [show ([x, y].dropLast) = [x] from rfl]
    rw [cascade]
    rw [show (jsJoin ":" [x]) = x from rfl]
    rw [show ([x].dropLast) = ([] : List String) from rfl]
    rw [cascade]
  set st2 := runHandlers p (st.handlers (x ++ ":" ++ y)) st with hst2
  have hmid : st2.handlers x = st.handlers x :=
    runHandlers_handlers_ne p x hxs (st.handlers (x ++ ":" ++ y)) st
  constructor
  · rw [hfire, hcasc, hmid, runHandlers_calls, runHandlers_calls]
  · rw [hfire, hcasc]
    rw [runHandlers_handlers_ne p z hz3]
    exact runHandlers_handlers_ne p z hz3 (st.handlers (x ++ ":" ++ y)) st

/-- Witness for C4 on `demoBus`: one handler each on "x:y", "x" and "z". -/
theorem c4_cascading_dispatch_witness :
    (fireEvent ("x" ++ ":" ++ "y") [] demoBus).calls =
      demoBus.calls ++ (demoBus.handlers ("x" ++ ":" ++ "y")).map (fun h => (h.hid, []))
                    ++ (demoBus.handlers "x").map (fun h => (h.hid, [])) ∧
    (fireEvent ("x" ++ ":" ++ "y") [] demoBus).handlers "z" = demoBus.handlers "z" :=
  c4_cascading_dispatch "x" "y" "z" [] demoBus (by decide) (by decide) (by decide)
    (by decide) (by decide) (by decide)

/-- C8: `setWithWorker` throws exactly when the object's `_type` is not
"attribute"; on an attribute it runs the same per-key immutability
filtering as `set` (the resulting record and rejected-key diagnostics are
those of `objSet`) and then fires "sheetWorkerCompleted" with no payload:
every handler registered there is invoked once, in order, with the empty
payload, and the one-shot list is cleared. -/
theorem c8_setWithWorker_gate (r : JSRecord) (changes : List (String × JSVal))
    (ev : EvState) :
    (r "_type" ≠ JSVal.vStr "attribute" →
      setWithWorker r changes ev =
        Except.error "Can't call setWithWorker on non-attribute objects.") ∧
    (r "_type" = JSVal.vStr "attribute" →
      setWithWorker r changes ev =
        Except.ok ((objSet changes r).1, (objSet changes r).2,
          fireEvent "sheetWorkerCompleted" [] ev) ∧
      (fireEvent "sheetWorkerCompleted" [] ev).calls =
        ev.calls ++ (ev.handlers "sheetWorkerCompleted").map (fun h => (h.hid, [])) ∧
      (fireEvent "sheetWorkerCompleted" [] ev).handlers "sheetWorkerCompleted" = []) := by
  constructor
  · intro h
    simp [setWithWorker, h]
  · intro h
    refine ⟨?_, fireEvent_swc_calls ev [], fireEvent_swc_clears ev []⟩
    simp [setWithWorker, h, objSet]

/-- Witness for C8: a one-field update of an attribute record against the
empty event bus. -/
theorem c8_setWithWorker_gate_witness :
    setWithWorker attrRec [("current", JSVal.vNum 3)] demoBus =
      Except.ok ((objSet [("current", JSVal.vNum 3)] attrRec).1,
        (objSet [("current", JSVal.vNum 3)] attrRec).2,
        fireEvent "sheetWorkerCompleted" [] demoBus) ∧
    (fireEvent "sheetWorkerCompleted" [] demoBus).calls =
      demoBus.calls ++
        (demoBus.handlers "sheetWorkerCompleted").map (fun h => (h.hid, [])) ∧
    (fireEvent "sheetWorkerCompleted" [] demoBus).handlers "sheetWorkerCompleted" = [] :=
  (c8_setWithWorker_gate attrRec [("current", JSVal.vNum 3)] demoBus).2 (by decide)

/-!
Helper lemma for the capability binding loop. -/

theorem assocFind_bindAll {α : Type} (host : String → Option α) (mocks : String → α)
    (wrappers : String → Option (α → α)) (k : String) :
    ∀ names : List String, k ∈ names →
      assocFind k (bindAll names host mocks wrappers) =
        some (bindCapability host mocks wrappers k) := by
  intro names
  induction names with
  | nil => intro h; cases h
  | cons n rest ih =>
    intro h
    by_cases hn : n = k
    · simp [bindAll, assocFind, hn]
    · have : k ∈ rest := by
        rcases List.mem_cons.mp h with he | hm
        · exact absurd he.symm hn
        · exact hm
      simpa [bindAll, assocFind, hn] using ih this

/-- C9: in the binding loop, a capability name resolves to the ambient
top-level scope's same-named callable when one is defined there and to the
built-in mock otherwise; when a wrapper is registered for the name, the
final bound callable is the wrapper applied to the resolved callable. In
particular (the claim's example, covered by the second conjunct at
k = "sendChat"), with no host implementation the mock is selected and the
bound form is the wrapper applied to the mock, so calls pass through the
wrapper before reaching it. -/
theorem c9_binding_resolution {α : Type} (names : List String)
    (host : String → Option α) (mocks : String → α)
    (wrappers : String → Option (α → α)) (k : String) (hk : k ∈ names) :
    (host k = none → wrappers k = none →
      assocFind k (bindAll names host mocks wrappers) = some (mocks k)) ∧
    (∀ w, host k = none → wrappers k = some w →
      assocFind k (bindAll names host mocks wrappers) = some (w (mocks k))) ∧
    (∀ f, host k = some f → wrappers k = none →
      assocFind k (bindAll names host mocks wrappers) = some f) ∧
    (∀ f w, host k = some f → wrappers k = some w →
      assocFind k (bindAll names host mocks wrappers) = some (w f)) := by
  have hfind := assocFind_bindAll host mocks wrappers k names hk
  refine ⟨?_, ?_, ?_, ?_⟩
  · intro hh hw
    rw [hfind]
    simp [bindCapability, hh, hw]
  · intro w hh hw
    rw [hfind]
    simp [bindCapability, hh, hw]
  · intro f hh hw
    rw [hfind]
    simp [bindCapability, hh, hw]
  · intro f w hh hw
    rw [hfind]
    simp [bindCapability, hh, hw]

/-- Witness for C9, the claim's end-to-end example with callables stood in
by numbers: binding "sendChat" with no host implementation and a
registered wrapper yields the wrapper applied to the mock. -/
theorem c9_binding_resolution_witness :
    assocFind "sendChat"
        (bindAll ["sendChat"] (fun _ => (none : Option Nat)) (fun _ => 0)
          (fun s => if s = "sendChat" then some (fun n => n + 1) else none)) =
      some ((fun n => n + 1) ((fun _ => (0 : Nat)) "sendChat")) :=
  (c9_binding_resolution ["sendChat"] (fun _ => (none : Option Nat)) (fun _ => 0)
      (fun s => if s = "sendChat" then some (fun n => n + 1) else none)
      "sendChat" (by decide)).2.1 (fun n => n + 1) rfl (by simp)

end Roll20
